import Mathlib

/-!
Shallow embedding of the Fiat-Shamir transcript (`Challenger` and
`RecursiveChallenger` from `src/plonk_challenger.rs`) and of the private-tx
example (`Server` from `server_emulation.rs`, `Client` from
`client_emulation.rs`), together with theorems settling the specification
claims about them.

The sponge permutation, the circuit builder's permutation gadget, the Merkle
root computation and the proving backend are external to the repository; they
appear here as parameters (`perm`, `rootFn`, `genProof`, `verify`, ...).
Machine integers (`usize`, `u64`) are modelled as `Nat`; Rust `Vec` as `List`;
a fixed-size array as a `List` of the corresponding length.
-/

/-- `slice.chunks(r)`: split a list into consecutive chunks of size `r`
(the last chunk may be shorter).  Rust's `chunks` panics on `r = 0`; the
`0` case here is a degenerate default that is never used by the embedding. -/
def chunksOf {F : Type} : Nat → List F → List (List F)
  | _, [] => []
  | 0, xs => [xs]
  | r + 1, x :: xs =>
      (x :: xs).take (r + 1) :: chunksOf (r + 1) ((x :: xs).drop (r + 1))
termination_by _ xs => xs.length
decreasing_by
  simp only [List.drop_succ_cons, List.length_drop, List.length_cons]
  omega

/-- The absorption loop body `for (i, &input) in input_chunk.iter().enumerate()
\x7b self.sponge_state[i] = input \x7d`: overwrite the first `chunk.length`
slots of `st` with the elements of `chunk`, leaving the rest untouched. -/
def overwriteFirst {F : Type} (st chunk : List F) : List F :=
  chunk.enum.foldl (fun s p => s.set p.1 p.2) st

/-- `Challenger` (src/plonk_challenger.rs:10): the native Fiat-Shamir
transcript.  `sponge_state` is the width-`SPONGE_WIDTH` state (a list of that
length), the two buffers are `Vec<F>`. -/
structure Challenger (F : Type) where
  sponge_state : List F
  input_buffer : List F
  output_buffer : List F
deriving DecidableEq, Repr

namespace Challenger

variable {F : Type} [Zero F]

/-- `Challenger::new` (src/plonk_challenger.rs:25), for sponge width `W`. -/
def new (W : Nat) : Challenger F :=
  { sponge_state := List.replicate W 0
    input_buffer := []
    output_buffer := [] }

/-- `Challenger::observe_element` (src/plonk_challenger.rs:33). -/
def observe_element (c : Challenger F) (element : F) : Challenger F :=
  { c with
    output_buffer := []
    input_buffer := c.input_buffer ++ [element] }

/-- `Challenger::observe_elements` (src/plonk_challenger.rs:49). -/
def observe_elements (c : Challenger F) (elements : List F) : Challenger F :=
  elements.foldl observe_element c

/-- `Challenger::observe_extension_element` (src/plonk_challenger.rs:40);
the extension element is given by its base-field coefficient array. -/
def observe_extension_element (c : Challenger F) (element : List F) :
    Challenger F :=
  element.foldl observe_element c

/-- `Challenger::absorb_buffered_inputs` (src/plonk_challenger.rs:126),
parametrised by the external permutation `perm` and the rate `R`. -/
def absorb_buffered_inputs (perm : List F → List F) (R : Nat)
    (c : Challenger F) : Challenger F :=
  if c.input_buffer.isEmpty then c
  else
    let final_state :=
      (chunksOf R c.input_buffer).foldl
        (fun st chunk => perm (overwriteFirst st chunk)) c.sponge_state
    { sponge_state := final_state
      input_buffer := []
      output_buffer := final_state.take R }

/-- `Challenger::get_challenge` (src/plonk_challenger.rs:68).  Returns the
challenge together with the updated challenger.  `Vec::pop` removes the last
element; the `expect` on an empty buffer is modelled by the default `0`
(unreachable for a width-preserving permutation with `0 < R`). -/
def get_challenge (perm : List F → List F) (R : Nat) (c : Challenger F) :
    F × Challenger F :=
  let c1 := absorb_buffered_inputs perm R c
  let c2 :=
    if c1.output_buffer.isEmpty then
      let s := perm c1.sponge_state
      { c1 with sponge_state := s, output_buffer := s.take R }
    else c1
  ((c2.output_buffer.getLast?).getD 0,
    { c2 with output_buffer := c2.output_buffer.dropLast })

/-- `Challenger::get_n_challenges` (src/plonk_challenger.rs:94):
`n` repeated `get_challenge` calls, in call order. -/
def get_n_challenges (perm : List F → List F) (R : Nat) :
    Nat → Challenger F → List F × Challenger F
  | 0, c => ([], c)
  | n + 1, c =>
    let r1 := get_challenge perm R c
    let rn := get_n_challenges perm R n r1.2
    (r1.1 :: rn.1, rn.2)

end Challenger

/-- A circuit wire value, as produced by the `CircuitBuilder` calls that
`RecursiveChallenger` makes: either a constant wire (`builder.zero()`,
`builder.constants(..)`) or output wire `i` of a permutation gadget applied
to a list of input wires (`builder.permute`). -/
inductive Target (F : Type) where
  | const : F → Target F
  | permOut : Nat → List (Target F) → Target F

instance {F : Type} [Zero F] : Zero (Target F) := ⟨Target.const 0⟩

/-- `CircuitBuilder::permute`: the in-circuit permutation gadget, producing
`W` fresh output wires wired to the given inputs. -/
def builderPermute {F : Type} (W : Nat) (inputs : List (Target F)) :
    List (Target F) :=
  (List.range W).map (fun i => Target.permOut i inputs)

/-- Witness generation: evaluate a wire, interpreting each permutation gadget
by the native permutation `perm` (the claim's assumption that the in-circuit
permute computes the same function as the native one). -/
def Target.eval {F : Type} [Zero F] (perm : List F → List F) :
    Target F → F
  | .const x => x
  | .permOut i args =>
      (perm (args.attach.map (fun a => a.1.eval perm))).getD i 0
decreasing_by
  have h := List.sizeOf_lt_of_mem a.2
  simp only [Target.permOut.sizeOf_spec]
  omega

/-- `RecursiveChallenger` (src/plonk_challenger.rs:156): the circuit version
of `Challenger`, holding wires (`Target`s) instead of field values. -/
structure RecursiveChallenger (F : Type) where
  sponge_state : List (Target F)
  input_buffer : List (Target F)
  output_buffer : List (Target F)

namespace RecursiveChallenger

variable {F : Type} [Zero F]

/-- `RecursiveChallenger::new` (src/plonk_challenger.rs:163): the sponge
state starts as `W` copies of the constant-zero wire `builder.zero()`. -/
def new (W : Nat) : RecursiveChallenger F :=
  { sponge_state := List.replicate W (Target.const 0)
    input_buffer := []
    output_buffer := [] }

/-- `RecursiveChallenger::observe_element` (src/plonk_challenger.rs:172). -/
def observe_element (c : RecursiveChallenger F) (target : Target F) :
    RecursiveChallenger F :=
  { c with
    output_buffer := []
    input_buffer := c.input_buffer ++ [target] }

/-- `RecursiveChallenger::observe_elements` (src/plonk_challenger.rs:179). -/
def observe_elements (c : RecursiveChallenger F) (targets : List (Target F)) :
    RecursiveChallenger F :=
  targets.foldl observe_element c

/-- `RecursiveChallenger::absorb_buffered_inputs`
(src/plonk_challenger.rs:230), with `builder.permute` in place of the native
permutation; `W` is the sponge width, `R` the rate. -/
def absorb_buffered_inputs (W R : Nat) (c : RecursiveChallenger F) :
    RecursiveChallenger F :=
  if c.input_buffer.isEmpty then c
  else
    let final_state :=
      (chunksOf R c.input_buffer).foldl
        (fun st chunk => builderPermute W (overwriteFirst st chunk))
        c.sponge_state
    { sponge_state := final_state
      input_buffer := []
      output_buffer := final_state.take R }

/-- `RecursiveChallenger::get_challenge` (src/plonk_challenger.rs:189). -/
def get_challenge (W R : Nat) (c : RecursiveChallenger F) :
    Target F × RecursiveChallenger F :=
  let c1 := absorb_buffered_inputs W R c
  let c2 :=
    if c1.output_buffer.isEmpty then
      let s := builderPermute W c1.sponge_state
      { c1 with sponge_state := s, output_buffer := s.take R }
    else c1
  ((c2.output_buffer.getLast?).getD (Target.const 0),
    { c2 with output_buffer := c2.output_buffer.dropLast })

/-- `RecursiveChallenger::get_n_challenges` (src/plonk_challenger.rs:221). -/
def get_n_challenges (W R : Nat) :
    Nat → RecursiveChallenger F → List (Target F) × RecursiveChallenger F
  | 0, c => ([], c)
  | n + 1, c =>
    let r1 := get_challenge W R c
    let rn := get_n_challenges W R n r1.2
    (r1.1 :: rn.1, rn.2)

end RecursiveChallenger

/-- One step of an interleaved transcript interaction: observe a field
element, or request a challenge. -/
inductive ChallengerOp (F : Type) where
  | observe : F → ChallengerOp F
  | challenge : ChallengerOp F

/-- Drive the native `Challenger` through a call sequence, collecting the
challenges it returns in order. -/
def runNative {F : Type} [Zero F] (perm : List F → List F) (R : Nat) :
    List (ChallengerOp F) → Challenger F → List F × Challenger F
  | [], c => ([], c)
  | .observe x :: ops, c => runNative perm R ops (c.observe_element x)
  | .challenge :: ops, c =>
    let r1 := Challenger.get_challenge perm R c
    let rn := runNative perm R ops r1.2
    (r1.1 :: rn.1, rn.2)

/-- Drive the `RecursiveChallenger` through the same call sequence; an
observed value enters the circuit as a constant wire
(`builder.constants(inputs)` in the consistency test). -/
def runCircuit {F : Type} [Zero F] (W R : Nat) :
    List (ChallengerOp F) → RecursiveChallenger F →
      List (Target F) × RecursiveChallenger F
  | [], c => ([], c)
  | .observe x :: ops, c =>
      runCircuit W R ops (c.observe_element (Target.const x))
  | .challenge :: ops, c =>
    let r1 := RecursiveChallenger.get_challenge W R c
    let rn := runCircuit W R ops r1.2
    (r1.1 :: rn.1, rn.2)

/-- `PublicInputs` (examples/private_tx/circuit.rs, declaration only): the
three public inputs of a spend proof; `L` is the digest (`HashOut`) type. -/
structure PublicInputs (L : Type) where
  nullifier_value : L
  merkle_root_value : L
  new_leaf_value : L
deriving DecidableEq, Repr

/-- Modelled from the spec: `State` (examples/private_tx/state.rs is not
under src/).  Per spec section 3, a `LedgerState` is two append-only
accumulators — a note (private UTXO) accumulator and a nullifier
accumulator — each an ordered sequence of leaves with a next-free-index
counter equal to the number of leaves inserted.  Field names follow the uses
in server_emulation.rs and client_emulation.rs; each tree is represented by
its leaf sequence. -/
structure State (L : Type) where
  private_utxo_tree : List L
  next_index_utxo : Nat
  nullify_utxo_tree : List L
  next_index_nullify : Nat
deriving DecidableEq, Repr

/-- Modelled from the spec: `State::add_private_utxo` (state.rs is not under
src/).  Per spec section 4.3, `insert(leaf) -> index` appends the leaf at
`next_free_index`, increments the counter, and returns the new leaf's
index. -/
def State.add_private_utxo {L : Type} (s : State L) (leaf : L) :
    State L × Nat :=
  ({ s with
      private_utxo_tree := s.private_utxo_tree ++ [leaf]
      next_index_utxo := s.next_index_utxo + 1 },
    s.next_index_utxo)

/-- Modelled from the spec: `State::add_nullify_utxo` (state.rs is not under
src/); same append-only insertion, into the nullifier accumulator. -/
def State.add_nullify_utxo {L : Type} (s : State L) (leaf : L) :
    State L × Nat :=
  ({ s with
      nullify_utxo_tree := s.nullify_utxo_tree ++ [leaf]
      next_index_nullify := s.next_index_nullify + 1 },
    s.next_index_nullify)

/-- `VerifierOnlyCircuitData` (declared in plonky2, rebuilt field-by-field in
`Server::get_recursive_proof`): carrier of the verifying-key material. -/
structure VerifierOnlyCircuitData (A B : Type) where
  constants_sigmas_cap : A
  circuit_digest : B
deriving DecidableEq, Repr

/-- `ProofTuple` (examples/private_tx/circuit.rs, declaration only): proof,
verifier-only data, common circuit data. -/
structure ProofTuple (Pr A B C : Type) where
  proof : Pr
  verifier_data : VerifierOnlyCircuitData A B
  common_data : C
deriving DecidableEq, Repr

/-- `Server` (examples/private_tx/server_emulation.rs:18).  The circuit
config and prebuilt circuit data are external; the backend's verifier enters
`verify_and_update_state` as the parameter `verify`, and the Merkle-root read
`state.private_utxo_tree.cap.0[0]` as the parameter `rootFn` over the note
accumulator's leaves. -/
structure Server (L Pr A B C : Type) where
  state : State L
  tree_height : Nat
  proofs : List (ProofTuple Pr A B C)
deriving DecidableEq, Repr

namespace Server

variable {L Pr A B C : Type} [DecidableEq L]

/-- `Server::verify_and_update_state`
(examples/private_tx/server_emulation.rs:48).  Rust mutates `&mut self` and
returns `Result<usize>`; here the updated server is returned alongside the
result. -/
def verify_and_update_state (rootFn : List L → L)
    (verify : Pr → Except String Unit) (srv : Server L Pr A B C)
    (proof : ProofTuple Pr A B C) (public_inp : PublicInputs L) :
    Server L Pr A B C × Except String Nat :=
  let current_utxo_root := rootFn srv.state.private_utxo_tree
  if current_utxo_root ≠ public_inp.merkle_root_value then
    (srv, .error "wrong merkle roof value")
  else
    match verify proof.proof with
    | .ok _ =>
      let s1 := (srv.state.add_nullify_utxo public_inp.nullifier_value).1
      let r2 := s1.add_private_utxo public_inp.new_leaf_value
      ({ srv with state := r2.1, proofs := srv.proofs ++ [proof] },
        .ok r2.2)
    | .error err => (srv, .error err)

end Server

/-- `Server::get_recursive_proof`
(examples/private_tx/server_emulation.rs:71), over the server's proof log.
The external recursive backend (`recursive_circuit` followed by
`gen_recursive_circuit(..).unwrap()`) is the parameter `combine`.  The Rust
recursion has no structural termination measure (it diverges when
`left > right`), so it is embedded with explicit fuel: `none` means the
recursion did not finish within `fuel` nested calls. -/
def getRecursiveProof {Pr A B C : Type}
    (combine : ProofTuple Pr A B C → ProofTuple Pr A B C → ProofTuple Pr A B C)
    (proofs : List (ProofTuple Pr A B C)) (dflt : ProofTuple Pr A B C) :
    Nat → Nat → Nat → Option (ProofTuple Pr A B C)
  | 0, _, _ => none
  | fuel + 1, left, right =>
    if left = right then
      let p := proofs.getD left dflt
      some
        { proof := p.proof
          verifier_data :=
            { constants_sigmas_cap := p.verifier_data.constants_sigmas_cap
              circuit_digest := p.verifier_data.circuit_digest }
          common_data := p.common_data }
    else
      let mid := (left + right) / 2
      match getRecursiveProof combine proofs dflt fuel left mid,
          getRecursiveProof combine proofs dflt fuel (mid + 1) right with
      | some inner1, some inner2 => some (combine inner1 inner2)
      | _, _ => none

/-- `PrivateWitness` (examples/private_tx/circuit.rs, declaration only): the
private witness of a spend proof; `M` is the Merkle-proof type. -/
structure PrivateWitness (F M : Type) where
  private_key : List F
  index : Nat
  token_id : F
  token_amount : F
  merkle_proof : M

/-- Outcome of a Rust call that can return `Ok`, return `Err`, or panic
(a failed `assert!` or `.unwrap()` on an `Err`). -/
inductive Outcome (A : Type) where
  | ok : A → Outcome A
  | err : String → Outcome A
  | panic : String → Outcome A
deriving DecidableEq, Repr

/-- `Client` (examples/private_tx/client_emulation.rs:17).  `state` is the
wallet's local mirror of the ledger `State`; `balance` is the `u64` balance,
`priv_index` the wallet note's index.  The circuit config is external. -/
structure Client (F L : Type) where
  state : State L
  priv_key : List F
  token_id : F
  balance : Nat
  priv_index : Nat
  tree_height : Nat
deriving DecidableEq, Repr

namespace Client

variable {F L M Pr A B C : Type} [Zero F] [DecidableEq L]

/-- `Client::get_state_from_server`
(examples/private_tx/client_emulation.rs:61). -/
def get_state_from_server (c : Client F L) (server : Server L Pr A B C) :
    Client F L :=
  { c with state := server.state }

/-- The note commitment `PoseidonHash::hash_no_pad(&[priv_key, [0, 0,
token_id, amount]].concat())` computed in `split_and_submit`
(client_emulation.rs:69 and :83); `hashNote` is the external Poseidon hash,
`fromU64` the `GoldilocksField::from_canonical_u64` injection. -/
def note_hash (hashNote : List F → L) (fromU64 : Nat → F)
    (priv_key : List F) (token_id : F) (amount : Nat) : L :=
  hashNote (priv_key ++ [0, 0, token_id, fromU64 amount])

/-- The `PublicInputs` value built inside `split_and_submit`
(client_emulation.rs:103): nullifier = hash of the old note, root = the
wallet mirror's current note root, new leaf = hash of the note with
`balance - delta`. -/
def mk_public_inputs (rootFn : List L → L) (hashNote : List F → L)
    (fromU64 : Nat → F) (c : Client F L) (delta : Nat) : PublicInputs L :=
  { nullifier_value := note_hash hashNote fromU64 c.priv_key c.token_id c.balance
    merkle_root_value := rootFn c.state.private_utxo_tree
    new_leaf_value :=
      note_hash hashNote fromU64 c.priv_key c.token_id (c.balance - delta) }

/-- The `PrivateWitness` value built inside `split_and_submit`
(client_emulation.rs:96); `merkleProve` is the external
`State::private_utxo_merkle_proof`. -/
def mk_witness (fromU64 : Nat → F) (merkleProve : State L → Nat → M)
    (c : Client F L) : PrivateWitness F M :=
  { private_key := c.priv_key
    index := c.priv_index
    token_id := c.token_id
    token_amount := fromU64 c.balance
    merkle_proof := merkleProve c.state c.priv_index }

/-- `Client::split_and_submit` (examples/private_tx/client_emulation.rs:65).
The external proving pipeline (`private_tx_circuit` + `gen_private_proof`)
is the parameter `genProof`; its `Err` propagates through the `?` operator
as the call's `Err`.  The `assert!` on the balance and the `.unwrap()` on
the server's result are panics.  On success the wallet's updated copy and
the updated server are returned (`Rust` mutates both in place). -/
def split_and_submit (rootFn : List L → L) (hashNote : List F → L)
    (fromU64 : Nat → F) (merkleProve : State L → Nat → M)
    (genProof : PublicInputs L → PrivateWitness F M →
      Except String (ProofTuple Pr A B C))
    (verify : Pr → Except String Unit)
    (c : Client F L) (delta : Nat) (server : Server L Pr A B C) :
    Outcome (Client F L × Server L Pr A B C) :=
  if ¬ delta ≤ c.balance then .panic "can\x27t split more than what you have"
  else
    let public_inp := mk_public_inputs rootFn hashNote fromU64 c delta
    let p_witness : PrivateWitness F M := mk_witness fromU64 merkleProve c
    match genProof public_inp p_witness with
    | .error e => .err e
    | .ok proof =>
      match Server.verify_and_update_state rootFn verify server proof
          public_inp with
      | (server', .ok new_index) =>
        let c' := { c with priv_index := new_index
                           balance := c.balance - delta }
        .ok (c'.get_state_from_server server', server')
      | (_, .error msg) => .panic msg

end Client

/-! ### Helper lemmas about the sponge building blocks -/

/-- Recursive characterisation of `overwriteFirst` (pointwise overwrite,
no-op past the end of the state). -/
def owfRec {F : Type} : List F → List F → List F
  | st, [] => st
  | [], _ :: _ => []
  | _ :: st, x :: ch => x :: owfRec st ch

theorem owfRec_nil_left {F : Type} (ch : List F) : owfRec [] ch = [] := by
  cases ch <;> rfl

theorem take_succ_set {F : Type} :
    ∀ (st : List F) (n : Nat) (x : F), n < st.length →
      (st.set n x).take (n + 1) = st.take n ++ [x]
  | [], n, x, hn => by simp at hn
  | s :: st, 0, x, _ => by simp
  | s :: st, n + 1, x, hn => by
      rw [List.set_cons_succ, List.take_succ_cons, List.take_succ_cons,
        take_succ_set st n x (by simpa using hn)]
      simp

theorem foldl_set_enumFrom {F : Type} (ch : List F) :
    ∀ (n : Nat) (st : List F),
      (List.enumFrom n ch).foldl (fun s p => s.set p.1 p.2) st
        = st.take n ++ owfRec (st.drop n) ch := by
  induction ch with
  | nil => intro n st; simp [owfRec]
  | cons x ch ih =>
    intro n st
    rw [List.enumFrom_cons, List.foldl_cons, ih (n + 1) (st.set n x)]
    by_cases hn : n < st.length
    · have hd : (st.set n x).drop (n + 1) = st.drop (n + 1) := by
        rw [List.drop_set]
        simp
      rw [hd, take_succ_set st n x hn, List.drop_eq_getElem_cons hn]
      simp [owfRec]
    · push_neg at hn
      rw [List.set_eq_of_length_le hn]
      rw [List.take_of_length_le (by omega), List.take_of_length_le hn]
      rw [List.drop_eq_nil_of_le (by omega), List.drop_eq_nil_of_le hn]
      rw [owfRec_nil_left, owfRec_nil_left]

theorem overwriteFirst_eq_owfRec {F : Type} (st ch : List F) :
    overwriteFirst st ch = owfRec st ch := by
  have h := foldl_set_enumFrom ch 0 st
  simpa [overwriteFirst, List.enum] using h

theorem owfRec_map {F G : Type} (f : F → G) :
    ∀ (st ch : List F), (owfRec st ch).map f = owfRec (st.map f) (ch.map f)
  | st, [] => by simp [owfRec]
  | [], _ :: _ => by simp [owfRec, owfRec_nil_left]
  | s :: st, x :: ch => by
      simp only [owfRec, List.map_cons]
      rw [owfRec_map f st ch]

/-- `overwriteFirst` commutes with mapping a function over both lists. -/
theorem overwriteFirst_map {F G : Type} (f : F → G) (st ch : List F) :
    (overwriteFirst st ch).map f = overwriteFirst (st.map f) (ch.map f) := by
  rw [overwriteFirst_eq_owfRec, overwriteFirst_eq_owfRec, owfRec_map]

/-- When the chunk fits inside the state, `overwriteFirst` replaces exactly
the first `chunk.length` slots and leaves the remaining slots untouched. -/
theorem overwriteFirst_eq_append {F : Type} :
    ∀ (st ch : List F), ch.length ≤ st.length →
      overwriteFirst st ch = ch ++ st.drop ch.length := by
  have key : ∀ (ch st : List F), ch.length ≤ st.length →
      owfRec st ch = ch ++ st.drop ch.length := by
    intro ch
    induction ch with
    | nil => intro st _; simp [owfRec]
    | cons x ch ih =>
      intro st hst
      cases st with
      | nil => simp at hst
      | cons s st =>
        simp only [owfRec, List.cons_append, List.length_cons,
          List.drop_succ_cons]
        rw [ih st (by simpa using hst)]
  intro st ch h
  rw [overwriteFirst_eq_owfRec]
  exact key ch st h

theorem chunksOf_map {F G : Type} (f : F → G) :
    ∀ (R : Nat) (l : List F),
      chunksOf R (l.map f) = (chunksOf R l).map (List.map f)
  | _, [] => by simp [chunksOf]
  | 0, _ :: _ => by simp [chunksOf]
  | r + 1, x :: xs => by
      simp only [List.map_cons, chunksOf, List.take_succ_cons,
        List.drop_succ_cons, ← List.map_take, ← List.map_drop]
      rw [chunksOf_map f (r + 1) (xs.drop r)]
termination_by _ l => l.length
decreasing_by
  simp only [List.length_drop, List.length_cons]
  omega

/-- The chunks of a list, concatenated back, give the list: the absorb loop
processes the buffered inputs in order, without loss. -/
theorem chunksOf_flatten {F : Type} :
    ∀ (R : Nat) (l : List F), 0 < R → (chunksOf R l).flatten = l
  | _, [], _ => by simp [chunksOf]
  | 0, _ :: _, h => by omega
  | r + 1, x :: xs, _ => by
      have ih := chunksOf_flatten (r + 1) ((x :: xs).drop (r + 1)) (by omega)
      simp only [chunksOf, List.flatten_cons, ih, List.take_append_drop]
termination_by _ l => l.length
decreasing_by
  simp only [List.drop_succ_cons, List.length_drop, List.length_cons]
  omega

/-- Every chunk produced by the absorb loop has size at most `R`. -/
theorem chunksOf_length_le {F : Type} :
    ∀ (R : Nat) (l : List F), 0 < R →
      ∀ ch ∈ chunksOf R l, ch.length ≤ R
  | _, [], _ => by simp [chunksOf]
  | 0, _ :: _, h => by omega
  | r + 1, x :: xs, _ => by
      have ih := chunksOf_length_le (r + 1) ((x :: xs).drop (r + 1)) (by omega)
      intro ch hch
      simp only [chunksOf, List.mem_cons] at hch
      rcases hch with h | h
      · subst h
        exact List.length_take_le (r + 1) (x :: xs)
      · exact ih ch h
termination_by _ l => l.length
decreasing_by
  simp only [List.drop_succ_cons, List.length_drop, List.length_cons]
  omega

/-! ### Native/circuit correspondence (claim C1) -/

theorem range_map_getD {α : Type} (d : α) (l : List α) :
    (List.range l.length).map (fun i => l.getD i d) = l := by
  induction l with
  | nil => simp
  | cons x xs ih =>
    have hc : ((fun i => (x :: xs).getD i d) ∘ Nat.succ)
        = fun i => xs.getD i d := by
      funext i
      simp [List.getD_cons_succ]
    rw [List.length_cons, List.range_succ_eq_map, List.map_cons,
      List.map_map, hc, ih]
    simp

/-- Evaluating the wires of the in-circuit permutation gadget gives the
native permutation of the evaluated inputs, for a width-preserving
permutation. -/
theorem map_eval_builderPermute {F : Type} [Zero F]
    (perm : List F → List F) (W : Nat)
    (hperm : ∀ s, (perm s).length = W) (ts : List (Target F)) :
    (builderPermute W ts).map (Target.eval perm)
      = perm (ts.map (Target.eval perm)) := by
  have hev : ∀ i, Target.eval perm (Target.permOut i ts)
      = (perm (ts.map (Target.eval perm))).getD i 0 := by
    intro i
    rw [Target.eval, List.attach_map_val]
  unfold builderPermute
  rw [List.map_map]
  calc (List.range W).map ((Target.eval perm) ∘ fun i => Target.permOut i ts)
      = (List.range W).map
          (fun i => (perm (ts.map (Target.eval perm))).getD i 0) := by
        exact List.map_congr_left (fun i _ => hev i)
    _ = perm (ts.map (Target.eval perm)) := by
        conv_lhs => rw [← hperm (ts.map (Target.eval perm))]
        exact range_map_getD 0 _

/-- The simulation relation between a `RecursiveChallenger` and a
`Challenger`: evaluating each wire of the circuit challenger's state gives
the corresponding native state, component for component. -/
def ChallengerSim {F : Type} [Zero F] (perm : List F → List F)
    (tc : RecursiveChallenger F) (c : Challenger F) : Prop :=
  tc.sponge_state.map (Target.eval perm) = c.sponge_state ∧
  tc.input_buffer.map (Target.eval perm) = c.input_buffer ∧
  tc.output_buffer.map (Target.eval perm) = c.output_buffer

theorem isEmpty_map {α β : Type} (f : α → β) (l : List α) :
    (l.map f).isEmpty = l.isEmpty := by
  cases l <;> rfl

theorem eval_getLast_getD {F : Type} [Zero F] (perm : List F → List F)
    (l : List (Target F)) :
    Target.eval perm ((l.getLast?).getD (Target.const 0))
      = ((l.map (Target.eval perm)).getLast?).getD 0 := by
  rw [List.getLast?_map]
  cases hl : l.getLast? <;> simp [hl, Target.eval]

theorem challengerSim_new {F : Type} [Zero F] (perm : List F → List F)
    (W : Nat) :
    ChallengerSim perm (RecursiveChallenger.new W) (Challenger.new W) := by
  refine ⟨?_, rfl, rfl⟩
  show (List.replicate W (Target.const (0 : F))).map (Target.eval perm)
      = List.replicate W 0
  rw [List.map_replicate]
  simp [Target.eval]

theorem challengerSim_observe {F : Type} [Zero F] (perm : List F → List F)
    {tc : RecursiveChallenger F} {c : Challenger F}
    (h : ChallengerSim perm tc c) (x : F) :
    ChallengerSim perm (tc.observe_element (Target.const x))
      (c.observe_element x) := by
  obtain ⟨h1, h2, h3⟩ := h
  refine ⟨h1, ?_, rfl⟩
  simp [RecursiveChallenger.observe_element, Challenger.observe_element, h2,
    Target.eval]

theorem foldl_absorb_map {F : Type} [Zero F] (perm : List F → List F)
    (W : Nat) (hperm : ∀ s, (perm s).length = W) :
    ∀ (chs : List (List (Target F))) (ts : List (Target F)),
      (chs.foldl (fun st chunk => builderPermute W (overwriteFirst st chunk))
          ts).map (Target.eval perm)
        = (chs.map (List.map (Target.eval perm))).foldl
            (fun st chunk => perm (overwriteFirst st chunk))
            (ts.map (Target.eval perm))
  | [], ts => rfl
  | ch :: chs, ts => by
      simp only [List.foldl_cons, List.map_cons]
      rw [foldl_absorb_map perm W hperm chs
        (builderPermute W (overwriteFirst ts ch))]
      rw [map_eval_builderPermute perm W hperm, overwriteFirst_map]

theorem challengerSim_absorb {F : Type} [Zero F] (perm : List F → List F)
    (W R : Nat) (hperm : ∀ s, (perm s).length = W)
    {tc : RecursiveChallenger F} {c : Challenger F}
    (h : ChallengerSim perm tc c) :
    ChallengerSim perm (tc.absorb_buffered_inputs W R)
      (c.absorb_buffered_inputs perm R) := by
  obtain ⟨h1, h2, h3⟩ := h
  simp only [RecursiveChallenger.absorb_buffered_inputs,
    Challenger.absorb_buffered_inputs]
  rw [← h2, isEmpty_map]
  by_cases he : tc.input_buffer.isEmpty = true
  · simp only [he, if_true]
    exact ⟨h1, h2, h3⟩
  · simp only [Bool.not_eq_true] at he
    simp only [he, Bool.false_eq_true, if_false]
    have hfold : ((chunksOf R tc.input_buffer).foldl
        (fun st chunk => builderPermute W (overwriteFirst st chunk))
        tc.sponge_state).map (Target.eval perm)
        = (chunksOf R (tc.input_buffer.map (Target.eval perm))).foldl
            (fun st chunk => perm (overwriteFirst st chunk))
            c.sponge_state := by
      rw [chunksOf_map, ← h1]
      exact foldl_absorb_map perm W hperm (chunksOf R tc.input_buffer)
        tc.sponge_state
    exact ⟨hfold, rfl, by rw [List.map_take, hfold]⟩

theorem challengerSim_get_challenge {F : Type} [Zero F]
    (perm : List F → List F) (W R : Nat)
    (hperm : ∀ s, (perm s).length = W)
    {tc : RecursiveChallenger F} {c : Challenger F}
    (h : ChallengerSim perm tc c) :
    (tc.get_challenge W R).1.eval perm = (c.get_challenge perm R).1 ∧
      ChallengerSim perm (tc.get_challenge W R).2
        (c.get_challenge perm R).2 := by
  obtain ⟨a1, a2, a3⟩ := challengerSim_absorb perm W R hperm h
  simp only [RecursiveChallenger.get_challenge, Challenger.get_challenge]
  rw [show (Challenger.absorb_buffered_inputs perm R c).output_buffer.isEmpty
      = (tc.absorb_buffered_inputs W R).output_buffer.isEmpty from by
    rw [← a3, isEmpty_map]]
  by_cases he :
      (tc.absorb_buffered_inputs W R).output_buffer.isEmpty = true
  · simp only [he, if_true]
    have hp := map_eval_builderPermute perm W hperm
      (tc.absorb_buffered_inputs W R).sponge_state
    rw [← a1, ← a2]
    refine ⟨?_, hp, rfl, ?_⟩
    · rw [eval_getLast_getD, List.map_take, hp]
    · rw [List.map_dropLast, List.map_take, hp]
  · simp only [Bool.not_eq_true] at he
    simp only [he, Bool.false_eq_true, if_false]
    rw [← a1, ← a2, ← a3]
    refine ⟨eval_getLast_getD perm _, rfl, rfl, ?_⟩
    rw [List.map_dropLast]

theorem runCircuit_sim {F : Type} [Zero F] (perm : List F → List F)
    (W R : Nat) (hperm : ∀ s, (perm s).length = W)
    (ops : List (ChallengerOp F)) :
    ∀ (tc : RecursiveChallenger F) (c : Challenger F),
      ChallengerSim perm tc c →
      (runCircuit W R ops tc).1.map (Target.eval perm)
          = (runNative perm R ops c).1 ∧
        ChallengerSim perm (runCircuit W R ops tc).2
          (runNative perm R ops c).2 := by
  induction ops with
  | nil => intro tc c h; exact ⟨rfl, h⟩
  | cons op ops ih =>
    intro tc c h
    cases op with
    | observe x =>
      exact ih _ _ (challengerSim_observe perm h x)
    | challenge =>
      have hg := challengerSim_get_challenge perm W R hperm h
      have hrest := ih _ _ hg.2
      simp only [runCircuit, runNative, List.map_cons]
      exact ⟨by rw [hg.1, hrest.1], hrest.2⟩

/-! ### Claim theorems for the transcript sponge -/

/-- C1: for every finite sequence of interleaved observe/get_challenge
calls, driving the native `Challenger` and the `RecursiveChallenger` with
the same observed field-element values yields identical challenge
sequences, element for element, once the circuit's challenge wires are
evaluated (the hypothesis `hperm` fixes the sponge width; `Target.eval`
interprets the in-circuit permute gadget by the same function as the native
permute, which is the claim's stated assumption). -/
theorem challenger_recursiveChallenger_equiv {F : Type} [Zero F]
    (perm : List F → List F) (W R : Nat)
    (hperm : ∀ s, (perm s).length = W) (ops : List (ChallengerOp F)) :
    (runCircuit W R ops (RecursiveChallenger.new W)).1.map (Target.eval perm)
      = (runNative perm R ops (Challenger.new W)).1 :=
  (runCircuit_sim perm W R hperm ops _ _ (challengerSim_new perm W)).1

/-- A concrete width-3 permutation over `Int` for instantiating the
theorems with hypotheses at concrete inputs. -/
def demoPerm (s : List Int) : List Int :=
  [s.foldl (· + ·) 0 + 1, s.foldl (· + ·) 0 + 2, s.foldl (· + ·) 0 + 3]

theorem challenger_recursiveChallenger_equiv_witness :
    (∀ s, (demoPerm s).length = 3) ∧
      (runCircuit 3 2 [ChallengerOp.observe (5 : Int), .challenge,
          .challenge, .observe 7, .challenge]
          (RecursiveChallenger.new 3)).1.map (Target.eval demoPerm)
        = (runNative demoPerm 2 [ChallengerOp.observe (5 : Int), .challenge,
            .challenge, .observe 7, .challenge] (Challenger.new 3)).1 :=
  ⟨fun _ => rfl,
    challenger_recursiveChallenger_equiv demoPerm 3 2 (fun _ => rfl) _⟩

/-- The state reached from `st` by processing `inputs` in chunks of size
`R`, in order, each chunk overwriting the first `chunk.length` slots and
being followed by one application of `perm` — the absorb phase described by
the specification of `get_challenge`. -/
def spongeAbsorb {F : Type} (perm : List F → List F) (R : Nat)
    (st inputs : List F) : List F :=
  (chunksOf R inputs).foldl (fun s chunk => perm (overwriteFirst s chunk)) st

theorem isEmpty_false_of_length_pos {α : Type} (l : List α)
    (h : 0 < l.length) : l.isEmpty = false := by
  cases l
  · simp at h
  · rfl

theorem foldl_perm_acc {F : Type} (perm : List F → List F) :
    ∀ (chs : List (List F)) (x : List F),
      ∃ y, chs.foldl (fun st ch => perm (overwriteFirst st ch)) (perm x)
        = perm y
  | [], x => ⟨x, rfl⟩
  | ch :: chs, x => foldl_perm_acc perm chs (overwriteFirst (perm x) ch)

/-- For a nonempty input buffer, the absorb fold ends with an application of
`perm`. -/
theorem spongeAbsorb_ends_in_perm {F : Type} (perm : List F → List F)
    (R : Nat) (hR : 0 < R) (st : List F) (x : F) (xs : List F) :
    ∃ y, spongeAbsorb perm R st (x :: xs) = perm y := by
  obtain ⟨r, rfl⟩ : ∃ r, R = r + 1 := ⟨R - 1, by omega⟩
  unfold spongeAbsorb
  rw [show chunksOf (r + 1) (x :: xs)
      = (x :: xs).take (r + 1) :: chunksOf (r + 1) ((x :: xs).drop (r + 1))
    from by simp [chunksOf]]
  rw [List.foldl_cons]
  exact foldl_perm_acc perm _ (overwriteFirst st ((x :: xs).take (r + 1)))

/-- C2: for a `Challenger` with a non-empty `input_buffer`, `get_challenge`
processes the buffered inputs in chunks of size `R` in order (the chunks
partition the buffer, each of size at most `R`), each chunk overwriting the
first `chunk.length` slots of `sponge_state` (slots past `chunk.length`
untouched, as the `overwriteFirst` clause states) followed by one
application of the permutation; it then sets `output_buffer` to the first
`R` state elements and clears `input_buffer`; if instead no inputs were
pending and `output_buffer` is empty it applies the permutation once and
refills `output_buffer` from the first `R` state elements; in both cases it
pops and returns the last element of `output_buffer` (LIFO). -/
theorem get_challenge_spec {F : Type} [Zero F] (perm : List F → List F)
    (W R : Nat) (hR : 0 < R) (hRW : R ≤ W)
    (hperm : ∀ s, (perm s).length = W) (c : Challenger F) :
    (c.input_buffer ≠ [] →
      Challenger.get_challenge perm R c =
        (((spongeAbsorb perm R c.sponge_state c.input_buffer).take
            R).getLast?.getD 0,
          { sponge_state := spongeAbsorb perm R c.sponge_state c.input_buffer
            input_buffer := []
            output_buffer :=
              ((spongeAbsorb perm R c.sponge_state c.input_buffer).take
                R).dropLast })) ∧
    ((chunksOf R c.input_buffer).flatten = c.input_buffer) ∧
    (∀ ch ∈ chunksOf R c.input_buffer, ch.length ≤ R) ∧
    (∀ st ch : List F, ch.length ≤ st.length →
      overwriteFirst st ch = ch ++ st.drop ch.length) ∧
    (c.input_buffer = [] → c.output_buffer = [] →
      Challenger.get_challenge perm R c =
        (((perm c.sponge_state).take R).getLast?.getD 0,
          { sponge_state := perm c.sponge_state
            input_buffer := c.input_buffer
            output_buffer := ((perm c.sponge_state).take R).dropLast })) := by
  refine ⟨?_, chunksOf_flatten R c.input_buffer hR,
    chunksOf_length_le R c.input_buffer hR, overwriteFirst_eq_append, ?_⟩
  · intro hne
    obtain ⟨x, xs, hcb⟩ : ∃ x xs, c.input_buffer = x :: xs := by
      cases hcb : c.input_buffer
      · exact absurd hcb hne
      · exact ⟨_, _, rfl⟩
    have hie : c.input_buffer.isEmpty = false := by rw [hcb]; rfl
    obtain ⟨y, hy⟩ := spongeAbsorb_ends_in_perm perm R hR c.sponge_state x xs
    have hone : ((spongeAbsorb perm R c.sponge_state
        c.input_buffer).take R).isEmpty = false := by
      apply isEmpty_false_of_length_pos
      rw [List.length_take, hcb, hy, hperm]
      omega
    simp only [Challenger.get_challenge, Challenger.absorb_buffered_inputs,
      hie, Bool.false_eq_true, if_false]
    simp only [spongeAbsorb] at hone
    simp only [hone, Bool.false_eq_true, if_false]
    rfl
  · intro hin hout
    have hie : c.input_buffer.isEmpty = true := by rw [hin]; rfl
    have hoe : c.output_buffer.isEmpty = true := by rw [hout]; rfl
    simp only [Challenger.get_challenge, Challenger.absorb_buffered_inputs,
      hie, if_true, hoe]

/-- A concrete challenger state with pending inputs, for witnesses. -/
def demoChallenger : Challenger Int :=
  { sponge_state := [0, 0, 0]
    input_buffer := [4, 5, 6, 7]
    output_buffer := [9] }

theorem get_challenge_spec_witness :
    0 < 2 ∧ 2 ≤ 3 ∧ (∀ s, (demoPerm s).length = 3) ∧
      ((demoChallenger.input_buffer ≠ [] →
        Challenger.get_challenge demoPerm 2 demoChallenger =
          (((spongeAbsorb demoPerm 2 demoChallenger.sponge_state
              demoChallenger.input_buffer).take 2).getLast?.getD 0,
            { sponge_state := spongeAbsorb demoPerm 2
                demoChallenger.sponge_state demoChallenger.input_buffer
              input_buffer := []
              output_buffer :=
                ((spongeAbsorb demoPerm 2 demoChallenger.sponge_state
                  demoChallenger.input_buffer).take 2).dropLast })) ∧
      ((chunksOf 2 demoChallenger.input_buffer).flatten
        = demoChallenger.input_buffer) ∧
      (∀ ch ∈ chunksOf 2 demoChallenger.input_buffer, ch.length ≤ 2) ∧
      (∀ st ch : List Int, ch.length ≤ st.length →
        overwriteFirst st ch = ch ++ st.drop ch.length) ∧
      (demoChallenger.input_buffer = [] →
        demoChallenger.output_buffer = [] →
        Challenger.get_challenge demoPerm 2 demoChallenger =
          (((demoPerm demoChallenger.sponge_state).take 2).getLast?.getD 0,
            { sponge_state := demoPerm demoChallenger.sponge_state
              input_buffer := demoChallenger.input_buffer
              output_buffer :=
                ((demoPerm demoChallenger.sponge_state).take
                  2).dropLast }))) :=
  ⟨by decide, by decide, fun _ => rfl,
    get_challenge_spec demoPerm 3 2 (by decide) (by decide) (fun _ => rfl)
      demoChallenger⟩

theorem observe_elements_effect {F : Type} [Zero F] :
    ∀ (xs : List F) (c : Challenger F),
      (c.observe_elements xs).sponge_state = c.sponge_state ∧
      (c.observe_elements xs).input_buffer = c.input_buffer ++ xs
  | [], c => ⟨rfl, by simp [Challenger.observe_elements]⟩
  | x :: xs, c => by
      have ih := observe_elements_effect xs (c.observe_element x)
      simp only [Challenger.observe_elements, List.foldl_cons] at *
      refine ⟨ih.1, ?_⟩
      rw [ih.2]
      simp [Challenger.observe_element]

/-- C6: `observe_element` clears `output_buffer`, appends the element to
`input_buffer` (previously buffered inputs keep their values and order),
and leaves `sponge_state` unchanged; observing a vector
(`observe_elements`) or an extension element
(`observe_extension_element`, given by its base-field components) is
exactly the in-order repetition of single-element observes of the
components — so in particular a vector observe leaves `sponge_state`
unchanged and appends the components in order. -/
theorem observe_element_spec {F : Type} [Zero F] (c : Challenger F) (x : F)
    (xs ext : List F) :
    c.observe_element x =
      { sponge_state := c.sponge_state
        input_buffer := c.input_buffer ++ [x]
        output_buffer := [] } ∧
    c.observe_elements xs = xs.foldl Challenger.observe_element c ∧
    c.observe_extension_element ext =
      ext.foldl Challenger.observe_element c ∧
    (c.observe_elements xs).sponge_state = c.sponge_state ∧
    (c.observe_elements xs).input_buffer = c.input_buffer ++ xs :=
  ⟨rfl, rfl, rfl, (observe_elements_effect xs c).1,
    (observe_elements_effect xs c).2⟩

/-! ### Claim theorems for the ledger coordinator -/

/-- C3: if the submitted `merkle_root_value` differs from the current root
of the note (private UTXO) accumulator, `verify_and_update_state` returns
an error and performs no mutation: the returned server — note accumulator,
nullifier accumulator and proof log included — is exactly the input
server. -/
theorem verify_and_update_state_stale_root {L Pr A B C : Type}
    [DecidableEq L] (rootFn : List L → L)
    (verify : Pr → Except String Unit) (srv : Server L Pr A B C)
    (proof : ProofTuple Pr A B C) (public_inp : PublicInputs L)
    (h : public_inp.merkle_root_value
      ≠ rootFn srv.state.private_utxo_tree) :
    Server.verify_and_update_state rootFn verify srv proof public_inp
      = (srv, Except.error "wrong merkle roof value") := by
  unfold Server.verify_and_update_state
  rw [if_pos (Ne.symm h)]

def demoRootFn (l : List Int) : Int := Int.ofNat l.length

def demoServer : Server Int Unit Unit Unit Unit :=
  { state :=
      { private_utxo_tree := [7]
        next_index_utxo := 1
        nullify_utxo_tree := []
        next_index_nullify := 0 }
    tree_height := 10
    proofs := [] }

def demoVerifyOk (_ : Unit) : Except String Unit := .ok ()

def demoVerifyFail (_ : Unit) : Except String Unit := .error "bad proof"

def demoProofTuple : ProofTuple Unit Unit Unit Unit := ⟨(), ⟨(), ()⟩, ()⟩

theorem verify_and_update_state_stale_root_witness :
    ((99 : Int) ≠ demoRootFn demoServer.state.private_utxo_tree) ∧
      Server.verify_and_update_state demoRootFn demoVerifyOk demoServer
        demoProofTuple ⟨5, 99, 6⟩
        = (demoServer, Except.error "wrong merkle roof value") :=
  ⟨by decide,
    verify_and_update_state_stale_root demoRootFn demoVerifyOk demoServer
      demoProofTuple ⟨5, 99, 6⟩ (by decide)⟩

/-- C4: when the root check passes, `verify_and_update_state` mutates state
only if backend verification also succeeds: a verification error is
propagated with no mutation; on success the nullifier is inserted into the
nullifier accumulator, the new leaf into the note accumulator, the proof is
appended to the proof log, and the new leaf's index (the note accumulator's
previous next-free index) is returned. -/
theorem verify_and_update_state_verify {L Pr A B C : Type}
    [DecidableEq L] (rootFn : List L → L)
    (verify : Pr → Except String Unit) (srv : Server L Pr A B C)
    (proof : ProofTuple Pr A B C) (public_inp : PublicInputs L)
    (hroot : public_inp.merkle_root_value
      = rootFn srv.state.private_utxo_tree) :
    (∀ e, verify proof.proof = .error e →
      Server.verify_and_update_state rootFn verify srv proof public_inp
        = (srv, .error e)) ∧
    (verify proof.proof = .ok () →
      Server.verify_and_update_state rootFn verify srv proof public_inp
        = ({ state :=
              { private_utxo_tree :=
                  srv.state.private_utxo_tree
                    ++ [public_inp.new_leaf_value]
                next_index_utxo := srv.state.next_index_utxo + 1
                nullify_utxo_tree :=
                  srv.state.nullify_utxo_tree
                    ++ [public_inp.nullifier_value]
                next_index_nullify := srv.state.next_index_nullify + 1 }
             tree_height := srv.tree_height
             proofs := srv.proofs ++ [proof] },
            .ok srv.state.next_index_utxo)) := by
  constructor
  · intro e he
    unfold Server.verify_and_update_state
    rw [if_neg (by simp [hroot]), he]
  · intro hok
    unfold Server.verify_and_update_state
    rw [if_neg (by simp [hroot]), hok]
    simp [State.add_nullify_utxo, State.add_private_utxo]

theorem verify_and_update_state_verify_witness :
    ((1 : Int) = demoRootFn demoServer.state.private_utxo_tree) ∧
      Server.verify_and_update_state demoRootFn demoVerifyFail demoServer
        demoProofTuple ⟨5, 1, 6⟩ = (demoServer, .error "bad proof") ∧
      Server.verify_and_update_state demoRootFn demoVerifyOk demoServer
        demoProofTuple ⟨5, 1, 6⟩
        = ({ state :=
              { private_utxo_tree := [7, 6]
                next_index_utxo := 2
                nullify_utxo_tree := [5]
                next_index_nullify := 1 }
             tree_height := 10
             proofs := [demoProofTuple] },
            .ok 1) :=
  ⟨by decide,
    (verify_and_update_state_verify demoRootFn demoVerifyFail demoServer
      demoProofTuple ⟨5, 1, 6⟩ (by decide)).1 "bad proof" rfl,
    (verify_and_update_state_verify demoRootFn demoVerifyOk demoServer
      demoProofTuple ⟨5, 1, 6⟩ (by decide)).2 rfl⟩

/-- Sufficient fuel makes the recursive fold finish: the recursion is
well-founded on `right - left` as long as `left ≤ right`. -/
theorem getRecursiveProof_isSome {Pr A B C : Type}
    (combine : ProofTuple Pr A B C → ProofTuple Pr A B C →
      ProofTuple Pr A B C)
    (proofs : List (ProofTuple Pr A B C)) (dflt : ProofTuple Pr A B C) :
    ∀ (fuel left right : Nat), left ≤ right → right - left < fuel →
      (getRecursiveProof combine proofs dflt fuel left right).isSome
        = true := by
  intro fuel
  induction fuel with
  | zero => intro l r h1 h2; omega
  | succ fuel ih =>
    intro l r h1 h2
    by_cases he : l = r
    · subst he
      simp [getRecursiveProof]
    · have hlr : l < r := by omega
      have i1 := ih l ((l + r) / 2) (by omega) (by omega)
      have i2 := ih ((l + r) / 2 + 1) r (by omega) (by omega)
      simp only [getRecursiveProof, if_neg he]
      obtain ⟨p1, hp1⟩ := Option.isSome_iff_exists.mp i1
      obtain ⟨p2, hp2⟩ := Option.isSome_iff_exists.mp i2
      rw [hp1, hp2]
      rfl

/-- C5: `get_recursive_proof` follows the specified balanced fold.  Base
case `left = right`: the leaf proof stored at that index is returned
unchanged (the re-wrap of its verifying-key material is the identity).
Recursive case `left < right`: it splits at `mid = (left + right) / 2` into
`[left, mid]` and `[mid + 1, right]` — the left half's size is always at
least the right half's, a range of 9 splitting 5/4 — recursively folds
both halves, and combines the two child proofs with the external recursive
prover. -/
theorem get_recursive_proof_spec {Pr A B C : Type}
    (combine : ProofTuple Pr A B C → ProofTuple Pr A B C →
      ProofTuple Pr A B C)
    (proofs : List (ProofTuple Pr A B C)) (dflt : ProofTuple Pr A B C)
    (fuel left right : Nat) :
    (left = right → 0 < fuel →
      getRecursiveProof combine proofs dflt fuel left right
        = some (proofs.getD left dflt)) ∧
    (left < right → right - left < fuel →
      (∃ p1 p2,
        getRecursiveProof combine proofs dflt (fuel - 1) left
            ((left + right) / 2) = some p1 ∧
        getRecursiveProof combine proofs dflt (fuel - 1)
            ((left + right) / 2 + 1) right = some p2 ∧
        getRecursiveProof combine proofs dflt fuel left right
          = some (combine p1 p2)) ∧
      ((left + right) / 2 - left + 1 ≥ right - (left + right) / 2) ∧
      (right - left + 1 = 9 →
        (left + right) / 2 - left + 1 = 5 ∧
          right - (left + right) / 2 = 4)) := by
  constructor
  · intro he hf
    subst he
    obtain ⟨f, rfl⟩ : ∃ f, fuel = f + 1 := ⟨fuel - 1, by omega⟩
    simp [getRecursiveProof]
  · intro hlr hfuel
    obtain ⟨f, rfl⟩ : ∃ f, fuel = f + 1 := ⟨fuel - 1, by omega⟩
    refine ⟨?_, by omega, by omega⟩
    have i1 := getRecursiveProof_isSome combine proofs dflt f left
      ((left + right) / 2) (by omega) (by omega)
    have i2 := getRecursiveProof_isSome combine proofs dflt f
      ((left + right) / 2 + 1) right (by omega) (by omega)
    obtain ⟨p1, hp1⟩ := Option.isSome_iff_exists.mp i1
    obtain ⟨p2, hp2⟩ := Option.isSome_iff_exists.mp i2
    refine ⟨p1, p2, ?_, ?_, ?_⟩
    · simpa using hp1
    · simpa using hp2
    · simp only [getRecursiveProof, if_neg (by omega : ¬ left = right)]
      rw [hp1, hp2]

def demoCombine (p q : ProofTuple Nat Unit Unit Unit) :
    ProofTuple Nat Unit Unit Unit :=
  { proof := p.proof + 10 * q.proof
    verifier_data := ⟨(), ()⟩
    common_data := () }

def demoProofLog : List (ProofTuple Nat Unit Unit Unit) :=
  [⟨1, ⟨(), ()⟩, ()⟩, ⟨2, ⟨(), ()⟩, ()⟩, ⟨3, ⟨(), ()⟩, ()⟩]

def demoDflt : ProofTuple Nat Unit Unit Unit := ⟨0, ⟨(), ()⟩, ()⟩

theorem get_recursive_proof_spec_witness :
    ((0 : Nat) = 0 → 0 < 1 →
      getRecursiveProof demoCombine demoProofLog demoDflt 1 0 0
        = some (demoProofLog.getD 0 demoDflt)) ∧
    (0 < 2 ∧ 2 - 0 < 3) ∧
    ((∃ p1 p2,
        getRecursiveProof demoCombine demoProofLog demoDflt 2 0 1
          = some p1 ∧
        getRecursiveProof demoCombine demoProofLog demoDflt 2 2 2
          = some p2 ∧
        getRecursiveProof demoCombine demoProofLog demoDflt 3 0 2
          = some (demoCombine p1 p2)) ∧
      ((0 + 2) / 2 - 0 + 1 ≥ 2 - (0 + 2) / 2) ∧
      (2 - 0 + 1 = 9 →
        (0 + 2) / 2 - 0 + 1 = 5 ∧ 2 - (0 + 2) / 2 = 4)) :=
  ⟨(get_recursive_proof_spec demoCombine demoProofLog demoDflt 1 0 0).1,
    ⟨by decide, by decide⟩,
    (get_recursive_proof_spec demoCombine demoProofLog demoDflt 3 0 2).2
      (by decide) (by decide)⟩

/-- C9: for `left ≤ right`, `get_recursive_proof` terminates — with fuel
exceeding `right - left` the recursion completes, since both recursive
calls are on strictly smaller ranges preserving `left ≤ right` — whereas
without the precondition (`left = right + 1`) the recursion never
decreases and no amount of fuel completes it. -/
theorem get_recursive_proof_terminates {Pr A B C : Type}
    (combine : ProofTuple Pr A B C → ProofTuple Pr A B C →
      ProofTuple Pr A B C)
    (proofs : List (ProofTuple Pr A B C)) (dflt : ProofTuple Pr A B C) :
    (∀ fuel left right, left ≤ right → right - left < fuel →
      (getRecursiveProof combine proofs dflt fuel left right).isSome
        = true) ∧
    (∀ fuel r,
      getRecursiveProof combine proofs dflt fuel (r + 1) r = none) := by
  refine ⟨getRecursiveProof_isSome combine proofs dflt, ?_⟩
  intro fuel
  induction fuel with
  | zero => intro r; rfl
  | succ fuel ih =>
    intro r
    have hmid : (r + 1 + r) / 2 = r := by omega
    simp only [getRecursiveProof, if_neg (by omega : ¬ r + 1 = r), hmid,
      ih r]

theorem get_recursive_proof_terminates_witness :
    (0 ≤ 2 ∧ 2 - 0 < 3 ∧
      (getRecursiveProof demoCombine demoProofLog demoDflt 3 0 2).isSome
        = true) ∧
    getRecursiveProof demoCombine demoProofLog demoDflt 5 5 4 = none :=
  ⟨⟨by decide, by decide,
    (get_recursive_proof_terminates demoCombine demoProofLog demoDflt).1
      3 0 2 (by decide) (by decide)⟩,
    (get_recursive_proof_terminates demoCombine demoProofLog demoDflt).2
      5 4⟩

/-! ### Claim theorems for the wallet client -/

/-- C7: when `split_amount` exceeds the wallet's known balance,
`split_and_submit` fails immediately on the `assert!` (modelled as the
panic outcome carrying the insufficient-balance message) before any proof
work: the outcome does not depend on the proving backend or on the
verifier, no updated wallet or server state is produced, and the wallet
value `c` itself is untouched (the embedding is pure, so `c.balance`,
`c.priv_index` and `c.state` are unchanged). -/
theorem split_and_submit_insufficient_balance {F L M Pr A B C : Type}
    [Zero F] [DecidableEq L] (rootFn : List L → L)
    (hashNote : List F → L) (fromU64 : Nat → F)
    (merkleProve : State L → Nat → M)
    (genProof gp2 : PublicInputs L → PrivateWitness F M →
      Except String (ProofTuple Pr A B C))
    (verify v2 : Pr → Except String Unit)
    (c : Client F L) (delta : Nat) (server : Server L Pr A B C)
    (h : c.balance < delta) :
    Client.split_and_submit rootFn hashNote fromU64 merkleProve genProof
        verify c delta server
      = .panic "can\x27t split more than what you have" ∧
    Client.split_and_submit rootFn hashNote fromU64 merkleProve genProof
        verify c delta server
      = Client.split_and_submit rootFn hashNote fromU64 merkleProve gp2
          v2 c delta server := by
  unfold Client.split_and_submit
  rw [if_pos (by omega : ¬ delta ≤ c.balance)]
  rw [if_pos (by omega : ¬ delta ≤ c.balance)]
  exact ⟨rfl, rfl⟩

def demoHash (l : List Int) : Int := l.foldl (· + ·) 0

def demoFromU64 (n : Nat) : Int := Int.ofNat n

def demoMerkleProve (_ : State Int) (_ : Nat) : Unit := ()

def demoGenProof (_ : PublicInputs Int) (_ : PrivateWitness Int Unit) :
    Except String (ProofTuple Unit Unit Unit Unit) := .ok demoProofTuple

def demoGenProofFail (_ : PublicInputs Int) (_ : PrivateWitness Int Unit) :
    Except String (ProofTuple Unit Unit Unit Unit) := .error "prover failed"

def demoClient : Client Int Int :=
  { state := demoServer.state
    priv_key := [1, 2, 3, 4]
    token_id := 1
    balance := 1000
    priv_index := 0
    tree_height := 10 }

theorem split_and_submit_insufficient_balance_witness :
    demoClient.balance < 2000 ∧
      Client.split_and_submit demoRootFn demoHash demoFromU64
          demoMerkleProve demoGenProof demoVerifyOk demoClient 2000
          demoServer
        = .panic "can\x27t split more than what you have" ∧
      Client.split_and_submit demoRootFn demoHash demoFromU64
          demoMerkleProve demoGenProof demoVerifyOk demoClient 2000
          demoServer
        = Client.split_and_submit demoRootFn demoHash demoFromU64
            demoMerkleProve demoGenProofFail demoVerifyFail demoClient 2000
            demoServer :=
  ⟨by decide,
    (split_and_submit_insufficient_balance demoRootFn demoHash demoFromU64
      demoMerkleProve demoGenProof demoGenProofFail demoVerifyOk
      demoVerifyFail demoClient 2000 demoServer (by decide)).1,
    (split_and_submit_insufficient_balance demoRootFn demoHash demoFromU64
      demoMerkleProve demoGenProof demoGenProofFail demoVerifyOk
      demoVerifyFail demoClient 2000 demoServer (by decide)).2⟩

/-- The wallet and server after the first demo split (balance 1000, split
12): used to chain the second split and as concrete witnesses. -/
def demoClient1 : Client Int Int :=
  { state :=
      { private_utxo_tree := [7, 999]
        next_index_utxo := 2
        nullify_utxo_tree := [1011]
        next_index_nullify := 1 }
    priv_key := [1, 2, 3, 4]
    token_id := 1
    balance := 988
    priv_index := 1
    tree_height := 10 }

def demoServer1 : Server Int Unit Unit Unit Unit :=
  { state := demoClient1.state
    tree_height := 10
    proofs := [demoProofTuple] }

/-- The balance held by the wallet in a successful outcome (`0` for a
failed one). -/
def outcomeBalance :
    Outcome (Client Int Int × Server Int Unit Unit Unit Unit) → Nat
  | .ok p => p.1.balance
  | _ => 0

/-- Chain of the two demo splits 12 then 13 from balance 1000. -/
def demoSplitTwice :
    Outcome (Client Int Int × Server Int Unit Unit Unit Unit) :=
  match Client.split_and_submit demoRootFn demoHash demoFromU64
      demoMerkleProve demoGenProof demoVerifyOk demoClient 12 demoServer with
  | .ok p =>
      Client.split_and_submit demoRootFn demoHash demoFromU64
        demoMerkleProve demoGenProof demoVerifyOk p.1 13 p.2
  | o => o

/-- C8: every successful `split_and_submit` leaves the wallet with local
index equal to the index returned by the coordinator's
`verify_and_update_state`, local balance equal to the old balance minus the
split amount, and a state mirror equal to the coordinator's current state;
in particular the demo wallet starting at balance 1000 performing
`split_and_submit 12` then `split_and_submit 13` ends with local balance
975. -/
theorem split_and_submit_success {F L M Pr A B C : Type} [Zero F]
    [DecidableEq L] (rootFn : List L → L) (hashNote : List F → L)
    (fromU64 : Nat → F) (merkleProve : State L → Nat → M)
    (genProof : PublicInputs L → PrivateWitness F M →
      Except String (ProofTuple Pr A B C))
    (verify : Pr → Except String Unit) (c : Client F L) (delta : Nat)
    (server : Server L Pr A B C) (c' : Client F L)
    (server' : Server L Pr A B C)
    (h : Client.split_and_submit rootFn hashNote fromU64 merkleProve
      genProof verify c delta server = .ok (c', server')) :
    (c'.balance = c.balance - delta ∧
      c'.state = server'.state ∧
      (∃ proof,
        genProof (Client.mk_public_inputs rootFn hashNote fromU64 c delta)
            (Client.mk_witness fromU64 merkleProve c) = .ok proof ∧
        Server.verify_and_update_state rootFn verify server proof
            (Client.mk_public_inputs rootFn hashNote fromU64 c delta)
          = (server', .ok c'.priv_index))) ∧
    outcomeBalance demoSplitTwice = 975 := by
  refine ⟨?_, by decide⟩
  unfold Client.split_and_submit at h
  by_cases hb : ¬ delta ≤ c.balance
  · rw [if_pos hb] at h
    exact absurd h (by simp)
  · rw [if_neg hb] at h
    dsimp only at h
    cases hgen : genProof
        (Client.mk_public_inputs rootFn hashNote fromU64 c delta)
        (Client.mk_witness fromU64 merkleProve c) with
    | error e =>
      rw [hgen] at h
      simp at h
    | ok proof =>
      rw [hgen] at h
      dsimp only at h
      cases hv : Server.verify_and_update_state rootFn verify server proof
          (Client.mk_public_inputs rootFn hashNote fromU64 c delta) with
      | mk server2 res =>
        rw [hv] at h
        cases res with
        | error msg => simp at h
        | ok idx =>
          simp only [Outcome.ok.injEq, Prod.mk.injEq] at h
          obtain ⟨hc, hs⟩ := h
          subst hs
          refine ⟨?_, ?_, proof, rfl, ?_⟩
          · rw [← hc]
            rfl
          · rw [← hc]
            rfl
          · rw [hv, ← hc]
            rfl

theorem split_and_submit_success_witness :
    Client.split_and_submit demoRootFn demoHash demoFromU64 demoMerkleProve
        demoGenProof demoVerifyOk demoClient 12 demoServer
      = .ok (demoClient1, demoServer1) ∧
    ((demoClient1.balance = demoClient.balance - 12 ∧
      demoClient1.state = demoServer1.state ∧
      (∃ proof,
        demoGenProof
            (Client.mk_public_inputs demoRootFn demoHash demoFromU64
              demoClient 12)
            (Client.mk_witness demoFromU64 demoMerkleProve demoClient)
          = .ok proof ∧
        Server.verify_and_update_state demoRootFn demoVerifyOk demoServer
            proof
            (Client.mk_public_inputs demoRootFn demoHash demoFromU64
              demoClient 12)
          = (demoServer1, .ok demoClient1.priv_index))) ∧
      outcomeBalance demoSplitTwice = 975) :=
  ⟨by decide,
    split_and_submit_success demoRootFn demoHash demoFromU64
      demoMerkleProve demoGenProof demoVerifyOk demoClient 12 demoServer
      demoClient1 demoServer1 (by decide)⟩

/-- C10: `split_and_submit` never returns the `Err` outcome for a
coordinator-side rejection: if the proving backend never fails, the call
never returns `Err` at all (its only `Err` source is the `?` on proof
generation); and when proof generation succeeds but the coordinator's
`verify_and_update_state` rejects — stale root or verification failure —
the `.unwrap()` turns the rejection into a panic carrying the rejection
message rather than an `Err` (the balance `assert!` likewise panics). -/
theorem split_and_submit_no_err {F L M Pr A B C : Type} [Zero F]
    [DecidableEq L] (rootFn : List L → L) (hashNote : List F → L)
    (fromU64 : Nat → F) (merkleProve : State L → Nat → M)
    (genProof : PublicInputs L → PrivateWitness F M →
      Except String (ProofTuple Pr A B C))
    (verify : Pr → Except String Unit) (c : Client F L) (delta : Nat)
    (server : Server L Pr A B C) :
    ((∀ pi w e, genProof pi w ≠ .error e) →
      ∀ e, Client.split_and_submit rootFn hashNote fromU64 merkleProve
        genProof verify c delta server ≠ .err e) ∧
    (∀ p server' msg, delta ≤ c.balance →
      genProof (Client.mk_public_inputs rootFn hashNote fromU64 c delta)
          (Client.mk_witness fromU64 merkleProve c) = .ok p →
      Server.verify_and_update_state rootFn verify server p
          (Client.mk_public_inputs rootFn hashNote fromU64 c delta)
        = (server', .error msg) →
      Client.split_and_submit rootFn hashNote fromU64 merkleProve genProof
        verify c delta server = .panic msg) := by
  constructor
  · intro hgen e
    unfold Client.split_and_submit
    by_cases hb : ¬ delta ≤ c.balance
    · rw [if_pos hb]
      simp
    · rw [if_neg hb]
      dsimp only
      cases hg : genProof
          (Client.mk_public_inputs rootFn hashNote fromU64 c delta)
          (Client.mk_witness fromU64 merkleProve c) with
      | error e2 => exact absurd hg (hgen _ _ e2)
      | ok proof =>
        dsimp only
        cases hv : Server.verify_and_update_state rootFn verify server
            proof (Client.mk_public_inputs rootFn hashNote fromU64 c
              delta) with
        | mk server2 res =>
          cases res with
          | ok idx => simp
          | error msg => simp
  · intro p server' msg hb hg hv
    unfold Client.split_and_submit
    rw [if_neg (by omega : ¬ ¬ delta ≤ c.balance)]
    dsimp only
    rw [hg]
    dsimp only
    rw [hv]

def demoServerStale : Server Int Unit Unit Unit Unit :=
  { state :=
      { private_utxo_tree := [7, 7]
        next_index_utxo := 2
        nullify_utxo_tree := []
        next_index_nullify := 0 }
    tree_height := 10
    proofs := [] }

theorem split_and_submit_no_err_witness :
    (Client.split_and_submit demoRootFn demoHash demoFromU64
        demoMerkleProve demoGenProof demoVerifyOk demoClient 12
        demoServerStale ≠ .err "wrong merkle roof value") ∧
    (12 ≤ demoClient.balance ∧
      demoGenProof
          (Client.mk_public_inputs demoRootFn demoHash demoFromU64
            demoClient 12)
          (Client.mk_witness demoFromU64 demoMerkleProve demoClient)
        = .ok demoProofTuple ∧
      Server.verify_and_update_state demoRootFn demoVerifyOk
          demoServerStale demoProofTuple
          (Client.mk_public_inputs demoRootFn demoHash demoFromU64
            demoClient 12)
        = (demoServerStale, .error "wrong merkle roof value") ∧
      Client.split_and_submit demoRootFn demoHash demoFromU64
          demoMerkleProve demoGenProof demoVerifyOk demoClient 12
          demoServerStale = .panic "wrong merkle roof value") :=
  ⟨(split_and_submit_no_err demoRootFn demoHash demoFromU64
      demoMerkleProve demoGenProof demoVerifyOk demoClient 12
      demoServerStale).1 (fun _ _ _ h => Except.noConfusion h)
      "wrong merkle roof value",
    by decide, rfl, rfl,
    (split_and_submit_no_err demoRootFn demoHash demoFromU64
      demoMerkleProve demoGenProof demoVerifyOk demoClient 12
      demoServerStale).2 demoProofTuple demoServerStale
      "wrong merkle roof value" (by decide) rfl rfl⟩
